import Mathlib

/-!
# Lab1: a file server (`server.go`) and a forwarding proxy (`proxy.go`)

A shallow embedding of the two Go programs and the properties of their
HTTP framing layer.

Conventions of the embedding.

* A Go `string` / `[]byte` is a list of bytes, a byte being a natural number
  below 256 (`Bytes`).  String literals of the source are all ASCII and are
  written `ascii "..."`.
* A connection's input side is the list of bytes that will still arrive
  followed by the way the stream ends (`StreamEnd`: a clean end of file, or a
  read error).  A peer that stalls forever is outside the model.
* Everything written to a connection is logged, one entry per output
  operation (`conn.Write`, `fmt.Fprintf`, `io.Copy`), in order; the bytes on
  the wire are the concatenation of the log.  Write errors are ignored by the
  source and are not modelled.
* The Go standard library (`strings`, `path/filepath`, `strconv`, `bufio`,
  `io`, `os`, `net/http`) is modelled by the definitions of the first
  sections; the functions of `server.go` and `proxy.go` follow, statement by
  statement, under the names they have in the source.
* The filesystem is the tree below the working directory, without symbolic
  links; the only permission it knows is a directory in which nothing may be
  created.  Writes to an open file always succeed.
* The accept loop of `server.go` and the goroutines it starts are a transition
  system whose steps are the statements of the loop and of the goroutine body,
  interleaved in any order; a send on the full channel and a receive on the
  empty channel are not enabled.
-/

namespace Lab1

/-! ## Bytes and literals -/

/-- A Go string or byte slice. -/
abbrev Bytes := List Nat

/-- The bytes of an ASCII literal. -/
def ascii (s : String) : Bytes := s.data.map Char.toNat

/-! ## `unicode/utf8` and `unicode` -/

/-- The value `utf8.RuneError`. -/
def runeError : Nat := 0xFFFD

/-- A continuation byte, `locb ≤ b ≤ hicb`. -/
def contByte (b : Nat) : Bool := decide (0x80 ≤ b) && decide (b ≤ 0xBF)

/-- Lower bound that `utf8.acceptRanges` puts on the second byte. -/
def acceptLo (b0 : Nat) : Nat :=
  if b0 = 0xE0 then 0xA0 else if b0 = 0xF0 then 0x90 else 0x80

/-- Upper bound that `utf8.acceptRanges` puts on the second byte. -/
def acceptHi (b0 : Nat) : Nat :=
  if b0 = 0xED then 0x9F else if b0 = 0xF4 then 0x8F else 0xBF

/-- Second byte accepted after the leading byte `b0`. -/
def accepted (b0 b1 : Nat) : Bool := decide (acceptLo b0 ≤ b1) && decide (b1 ≤ acceptHi b0)

/-- Go `utf8.DecodeRuneInString`: the first rune of `s` and its width in bytes;
invalid or truncated encodings give `(RuneError, 1)`, the empty string
`(RuneError, 0)`. -/
def decodeRune : Bytes → Nat × Nat
  | [] => (runeError, 0)
  | b0 :: rest =>
    if b0 < 0x80 then (b0, 1)
    else if 0xC2 ≤ b0 ∧ b0 ≤ 0xDF then
      match rest with
      | b1 :: _ =>
        if accepted b0 b1 then ((b0 % 32) * 64 + b1 % 64, 2) else (runeError, 1)
      | [] => (runeError, 1)
    else if 0xE0 ≤ b0 ∧ b0 ≤ 0xEF then
      match rest with
      | b1 :: b2 :: _ =>
        if accepted b0 b1 && contByte b2 then
          ((b0 % 16) * 4096 + (b1 % 64) * 64 + b2 % 64, 3)
        else (runeError, 1)
      | _ => (runeError, 1)
    else if 0xF0 ≤ b0 ∧ b0 ≤ 0xF4 then
      match rest with
      | b1 :: b2 :: b3 :: _ =>
        if accepted b0 b1 && contByte b2 && contByte b3 then
          ((b0 % 8) * 262144 + (b1 % 64) * 4096 + (b2 % 64) * 64 + b3 % 64, 4)
        else (runeError, 1)
      | _ => (runeError, 1)
    else (runeError, 1)

/-- Go `unicode.IsSpace`: the Latin-1 spaces and the `White_Space` table. -/
def isSpace (r : Nat) : Bool :=
  decide (9 ≤ r ∧ r ≤ 13) || decide (r = 0x20) || decide (r = 0x85) || decide (r = 0xA0)
    || decide (r = 0x1680) || decide (0x2000 ≤ r ∧ r ≤ 0x200A)
    || decide (r = 0x2028) || decide (r = 0x2029) || decide (r = 0x202F)
    || decide (r = 0x205F) || decide (r = 0x3000)

/-- The runes of a string as a `for range` loop sees them, each with the bytes
that encode it.  The first argument counts the bytes still to skip because
they belong to the rune decoded last. -/
def runesAux : Nat → Bytes → List (Nat × Bytes)
  | _, [] => []
  | 0, b :: rest =>
    let d := decodeRune (b :: rest)
    (d.1, (b :: rest).take d.2) :: runesAux (d.2 - 1) rest
  | k + 1, _ :: rest => runesAux k rest

/-- The runes of a string, each with its bytes. -/
def runes (s : Bytes) : List (Nat × Bytes) := runesAux 0 s

/-! ## `strings` -/

/-- The loop of Go `strings.FieldsFunc(s, unicode.IsSpace)`: `cur` is the field
being read (empty when none is open). -/
def fieldsAux : List (Nat × Bytes) → Bytes → List Bytes
  | [], cur => if cur = [] then [] else [cur]
  | (r, bs) :: rest, cur =>
    if isSpace r then
      if cur = [] then fieldsAux rest [] else cur :: fieldsAux rest []
    else fieldsAux rest (cur ++ bs)

/-- Go `strings.Fields`: the maximal runs of non-space runes. -/
def fields (s : Bytes) : List Bytes := fieldsAux (runes s) []

/-- Whether a decoded rune is a space. -/
def spaceRune (c : Nat × Bytes) : Bool := isSpace c.1

/-- Go `strings.TrimSpace`: leading and trailing space runes removed. -/
def trimSpace (s : Bytes) : Bytes :=
  ((((runes s).dropWhile spaceRune).reverse.dropWhile spaceRune).reverse.map Prod.snd).flatten

/-- Cut `s` at the first occurrence of the byte `sep`. -/
def cut (sep : Nat) : Bytes → Option (Bytes × Bytes)
  | [] => none
  | b :: rest =>
    if b = sep then some ([], rest)
    else match cut sep rest with
      | some (before, after) => some (b :: before, after)
      | none => none

/-- Go `strings.SplitN(s, sep, 2)` for a one-byte separator. -/
def splitN2 (sep : Nat) (s : Bytes) : List Bytes :=
  match cut sep s with
  | some (before, after) => [before, after]
  | none => [s]

/-- Split on every occurrence of the byte `sep` (`cur` is the piece being
read, reversed). -/
def splitOnAux (sep : Nat) : Bytes → Bytes → List Bytes
  | [], cur => [cur.reverse]
  | b :: rest, cur =>
    if b = sep then cur.reverse :: splitOnAux sep rest [] else splitOnAux sep rest (b :: cur)

/-- Go `strings.Split(s, sep)` for a one-byte separator. -/
def splitOn (sep : Nat) (s : Bytes) : List Bytes := splitOnAux sep s []

/-- Go `strings.Join(elems, sep)`. -/
def joinWith (sep : Bytes) : List Bytes → Bytes
  | [] => []
  | [e] => e
  | e :: rest => e ++ sep ++ joinWith sep rest

/-! ## `path/filepath` (Unix) -/

/-- The path separator `/`. -/
def slash : Nat := 47

/-- The byte `.`. -/
def dot : Nat := 46

/-- One step of `filepath.Clean` on the path element `e`; `stack` holds the
elements kept so far, last one first. -/
def cleanStep (rooted : Bool) (stack : List Bytes) (e : Bytes) : List Bytes :=
  if e = [] ∨ e = [dot] then stack
  else if e = [dot, dot] then
    match stack with
    | [] => if rooted then [] else [[dot, dot]]
    | top :: below => if top = [dot, dot] then [dot, dot] :: top :: below else below
  else e :: stack

/-- Go `filepath.Clean`. -/
def clean (path : Bytes) : Bytes :=
  let rooted := decide (path.head? = some slash)
  let kept := ((splitOn slash path).foldl (cleanStep rooted) []).reverse
  let out := (if rooted then [slash] else []) ++ joinWith [slash] kept
  if out = [] then [dot] else out

/-- Go `filepath.Join(a, b)` for a non-empty first element. -/
def join (a b : Bytes) : Bytes := clean (a ++ [slash] ++ b)

/-- The loop of `filepath.Ext`, from the last byte backwards. -/
def extAux : Bytes → Bytes → Bytes
  | [], _ => []
  | b :: before, acc =>
    if b = slash then [] else if b = dot then dot :: acc else extAux before (b :: acc)

/-- Go `filepath.Ext`: the suffix from the last dot of the last element. -/
def ext (path : Bytes) : Bytes := extAux path.reverse []

/-- Go `filepath.Dir`: all but the last element, cleaned. -/
def dir (path : Bytes) : Bytes :=
  clean (path.reverse.dropWhile (fun b => b ≠ slash)).reverse

/-! ## `strconv` and `fmt` -/

/-- Outcome of `strconv.ParseUint`. -/
inductive UintResult where
  | ok (n : Nat)
  | malformed
  | outOfRange
  deriving DecidableEq, Repr

/-- The digit loop of `strconv.ParseUint(s, 10, 64)`. -/
def parseUintLoop : Bytes → Nat → UintResult
  | [], n => .ok n
  | c :: rest, n =>
    if 48 ≤ c ∧ c ≤ 57 then
      if n ≥ (2 ^ 64 - 1) / 10 + 1 then .outOfRange
      else if n * 10 + (c - 48) > 2 ^ 64 - 1 then .outOfRange
      else parseUintLoop rest (n * 10 + (c - 48))
    else .malformed

/-- Go `strconv.ParseUint(s, 10, 64)`. -/
def parseUint (s : Bytes) : UintResult :=
  if s = [] then .malformed else parseUintLoop s 0

/-- What `strconv.ParseInt` returns: the value and whether `err != nil`. -/
structure IntResult where
  val : Int
  err : Bool
  deriving DecidableEq, Repr

/-- Go `strconv.ParseInt(s, 10, 64)`. -/
def parseInt (s : Bytes) : IntResult :=
  match s with
  | [] => ⟨0, true⟩
  | c :: rest =>
    let neg := decide (c = 45)
    let digits := if c = 43 ∨ c = 45 then rest else c :: rest
    match parseUint digits with
    | .malformed => ⟨0, true⟩
    | .outOfRange => if neg then ⟨-(2 ^ 63 : Int), true⟩ else ⟨2 ^ 63 - 1, true⟩
    | .ok un =>
      if !neg && decide (un ≥ 2 ^ 63) then ⟨2 ^ 63 - 1, true⟩
      else if neg && decide (un > 2 ^ 63) then ⟨-(2 ^ 63 : Int), true⟩
      else ⟨if neg then -(un : Int) else (un : Int), false⟩

/-- The verb `%d` of `fmt` on an `int`. -/
def fmtInt (n : Int) : Bytes :=
  if n < 0 then 45 :: (Nat.toDigits 10 n.natAbs).map Char.toNat
  else (Nat.toDigits 10 n.natAbs).map Char.toNat

/-! ## `bufio` -/

/-- How a connection's input ends once its bytes are consumed. -/
inductive StreamEnd where
  | eof
  | err
  deriving DecidableEq, Repr

/-- A `bufio.Reader` over a connection: the bytes not yet consumed and the way
the stream ends after them. -/
structure Reader where
  data : Bytes
  fin : StreamEnd
  deriving DecidableEq, Repr

/-- The first line of `s`, its newline included, and what follows it; `none`
when `s` holds no newline. -/
def cutLine : Bytes → Option (Bytes × Bytes)
  | [] => none
  | b :: rest =>
    if b = 10 then some ([10], rest)
    else match cutLine rest with
      | some (line, after) => some (b :: line, after)
      | none => none

/-- Go `(*bufio.Reader).ReadString('\n')`: the bytes up to and including the
first newline; when the stream ends first, the bytes read so far and the
error (`some .eof` is `io.EOF`). -/
def Reader.readString (r : Reader) : Bytes × Option StreamEnd × Reader :=
  match cutLine r.data with
  | some (line, after) => (line, none, { r with data := after })
  | none => (r.data, some r.fin, { r with data := [] })

/-! ## `os`: the filesystem -/

/-- What a path names. -/
inductive Node where
  | file (content : Bytes)
  | dir
  deriving DecidableEq, Repr

/-- The filesystem below the working directory: the entries by cleaned
relative path (the first entry for a path counts), and the directories in
which no entry may be created.  The working directory `.` always exists. -/
structure FS where
  nodes : List (Bytes × Node)
  locked : List Bytes
  deriving DecidableEq, Repr

/-- A filesystem call, as logged. -/
inductive FsOp where
  | stat (path : Bytes)
  | mkdirAll (path : Bytes)
  | openFile (path : Bytes)
  | create (path : Bytes)
  | write (path : Bytes) (content : Bytes)
  deriving DecidableEq, Repr

/-- The entry a path names. -/
def FS.lookup (fs : FS) (p : Bytes) : Option Node :=
  if p = [dot] then some .dir else fs.nodes.lookup p

/-- The directories above a relative path and the path itself, outermost
first: `a/b/c` gives `a`, `a/b`, `a/b/c`. -/
def ancestors (p : Bytes) : List Bytes :=
  ((splitOn slash p).inits.filter (fun es => es ≠ [])).map (joinWith [slash])

/-- Result of `os.Stat` as `ensureDir` uses it. -/
inductive StatResult where
  | found
  | notExist
  | otherError
  deriving DecidableEq, Repr

/-- Go `os.Stat`: an entry under a regular file is an error other than
"does not exist". -/
def FS.stat (fs : FS) (p : Bytes) : StatResult :=
  match fs.lookup p with
  | some _ => .found
  | none =>
    if (ancestors p).any (fun q => match fs.lookup q with | some (.file _) => true | _ => false)
    then .otherError else .notExist

/-- One level of `os.MkdirAll`: make the directory `q` unless it exists. -/
def mkdirStep (acc : Bool × FS) (q : Bytes) : Bool × FS :=
  if acc.1 then acc
  else match acc.2.lookup q with
    | some .dir => acc
    | some (.file _) => (true, acc.2)
    | none =>
      if dir q ∈ acc.2.locked then (true, acc.2)
      else (false, { acc.2 with nodes := (q, .dir) :: acc.2.nodes })

/-- Go `os.MkdirAll`: whether it failed, and the filesystem afterwards. -/
def FS.mkdirAll (fs : FS) (p : Bytes) : Bool × FS :=
  (ancestors p).foldl mkdirStep (false, fs)

/-- Go `os.Open` followed by reading the file to its end: `none` when the open
fails, otherwise the bytes the reads deliver (none for a directory). -/
def FS.openRead (fs : FS) (p : Bytes) : Option Bytes :=
  match fs.lookup p with
  | some (.file c) => some c
  | some .dir => some []
  | none => none

/-- Go `os.Create`: the filesystem with an empty file at `p`, or `none` when
the call fails (the path is a directory, or the file is new and its directory
is missing or locked). -/
def FS.create (fs : FS) (p : Bytes) : Option FS :=
  match fs.lookup p with
  | some .dir => none
  | some (.file _) => some { fs with nodes := (p, .file []) :: fs.nodes }
  | none =>
    if fs.lookup (dir p) = some .dir ∧ dir p ∉ fs.locked then
      some { fs with nodes := (p, .file []) :: fs.nodes }
    else none

/-- Writing `bs` to the file just created at `p`. -/
def FS.writeFile (fs : FS) (p : Bytes) (bs : Bytes) : FS :=
  { fs with nodes := (p, .file bs) :: fs.nodes }

/-! ## `server.go` -/

namespace Server

/-- The constant `maxClients`. -/
def maxClients : Nat := 10

/-- The table `mimeTypes`. -/
def mimeTypes : List (Bytes × Bytes) :=
  [ (ascii ".html", ascii "text/html"),
    (ascii ".txt", ascii "text/plain"),
    (ascii ".gif", ascii "image/gif"),
    (ascii ".jpeg", ascii "image/jpeg"),
    (ascii ".jpg", ascii "image/jpeg"),
    (ascii ".css", ascii "text/css") ]

/-- A Go `map[string]string`: the latest binding of a key comes first. -/
abbrev Headers := List (Bytes × Bytes)

/-- The map read `m[key]`: the empty string for an absent key. -/
def Headers.get (m : Headers) (key : Bytes) : Bytes := (m.lookup key).getD []

/-- The map write `m[key] = value`. -/
def Headers.set (m : Headers) (key value : Bytes) : Headers := (key, value) :: m

/-- All that a connection handler of the server touches: the connection's
reader, the log of what was written to the connection, the filesystem and
the log of filesystem calls. -/
structure World where
  reader : Reader
  written : List Bytes
  fs : FS
  ops : List FsOp
  deriving DecidableEq, Repr

/-- The bytes on the wire. -/
def World.wire (w : World) : Bytes := w.written.flatten

/-- Go `conn.Write`. -/
def World.write (w : World) (bs : Bytes) : World := { w with written := w.written ++ [bs] }

/-- Record a filesystem call. -/
def World.log (w : World) (op : FsOp) : World := { w with ops := w.ops ++ [op] }

/-- The bytes `fmt.Sprintf("HTTP/1.1 %d %s\r\n\r\n%s\r\n", statusCode, message, message)`. -/
def errorResponse (statusCode : Int) (message : Bytes) : Bytes :=
  ascii "HTTP/1.1 " ++ fmtInt statusCode ++ ascii " " ++ message ++ ascii "\r\n\r\n"
    ++ message ++ ascii "\r\n"

/-- The bytes `fmt.Sprintf("HTTP/1.1 200 OK\r\n\r\n%s\r\n", message)`. -/
def successResponse (message : Bytes) : Bytes :=
  ascii "HTTP/1.1 200 OK\r\n\r\n" ++ message ++ ascii "\r\n"

/-- The function `writeErrorResponse`. -/
def writeErrorResponse (w : World) (statusCode : Int) (message : Bytes) : World :=
  w.write (errorResponse statusCode message)

/-- The function `writeSuccessResponse`. -/
def writeSuccessResponse (w : World) (message : Bytes) : World :=
  w.write (successResponse message)

/-- The function `parseRequestLine`. -/
def parseRequestLine (requestLine : Bytes) : Bytes × Bytes × Bytes :=
  match fields requestLine with
  | [method, path, version] => (method, path, version)
  | _ => ([], [], [])

/-- The function `ensureDir`: whether it returns an error, and the world
afterwards. -/
def ensureDir (w : World) (filePath : Bytes) : Bool × World :=
  let d := dir filePath
  let w := w.log (.stat d)
  if w.fs.stat d = .notExist then
    let w := w.log (.mkdirAll d)
    let r := w.fs.mkdirAll d
    (r.1, { w with fs := r.2 })
  else (false, w)

/-- The loop of `parseHeaders`; `fuel` bounds the number of lines read, and
`none` is the error return. -/
def parseHeadersLoop : Nat → Reader → Headers → Option Headers × Reader
  | 0, reader, _ => (none, reader)
  | fuel + 1, reader, headers =>
    match reader.readString with
    | (_, some _, reader) => (none, reader)
    | (line, none, reader) =>
      let line := trimSpace line
      if line = [] then (some headers, reader)
      else match splitN2 58 line with
        | [k, v] => parseHeadersLoop fuel reader (headers.set (trimSpace k) (trimSpace v))
        | _ => (none, reader)

/-- The function `parseHeaders`: every line read holds at least one byte, so
one more round than there are bytes is never used up. -/
def parseHeaders (reader : Reader) : Option Headers × Reader :=
  parseHeadersLoop (reader.data.length + 1) reader []

/-- The function `handleGET`. -/
def handleGET (w : World) (path : Bytes) : World :=
  let filePath := join (ascii ".") path
  let ext := ext filePath
  match mimeTypes.lookup ext with
  | none => writeErrorResponse w 400 (ascii "Bad Request")
  | some mimeType =>
    let w := w.log (.openFile filePath)
    match w.fs.openRead filePath with
    | none => writeErrorResponse w 404 (ascii "Not Found")
    | some content =>
      let w := w.write (ascii "HTTP/1.1 200 OK\r\n")
      let w := w.write (ascii "Content-Type: " ++ mimeType ++ ascii "\r\n\r\n")
      w.write content

/-- Go `io.Copy(file, &io.LimitedReader{R: reader, N: n})`: the reader after
the copy, the bytes handed to the file and whether the copy returns an error.
At most `n` bytes are taken; a stream that ends cleanly before that is no
error. -/
def copyLimited (reader : Reader) (n : Int) : Reader × Bytes × Bool :=
  let k := n.toNat
  if k ≤ reader.data.length then
    ({ reader with data := reader.data.drop k }, reader.data.take k, false)
  else
    ({ reader with data := [] }, reader.data, decide (reader.fin = .err))

/-- Go `os.Create(filePath)`: the file, or `none` for the nil file that comes
with an error. -/
def osCreate (w : World) (filePath : Bytes) : Option Bytes × World :=
  let w := w.log (.create filePath)
  match w.fs.create filePath with
  | none => (none, w)
  | some fs => (some filePath, { w with fs := fs })

/-- Go `io.Copy(file, limitedReader)` with the reader limited to `n` bytes:
whether it returns an error, and the world afterwards.  On a nil `file` the
call fails in `(*os.File).ReadFrom` before anything is read. -/
def copyToFile (w : World) (file : Option Bytes) (n : Int) : Bool × World :=
  match file with
  | none => (true, w)
  | some p =>
    let c := copyLimited w.reader n
    let w := { w with reader := c.1, fs := w.fs.writeFile p c.2.1 }
    (c.2.2, w.log (.write p c.2.1))

/-- The function `handlePOST`. -/
def handlePOST (w : World) (path : Bytes) : World :=
  let filePath := join (ascii ".") path
  let ext := ext filePath
  match mimeTypes.lookup ext with
  | none => writeErrorResponse w 400 (ascii "Bad Request")
  | some _ =>
    match ensureDir w filePath with
    | (true, w) => writeErrorResponse w 500 (ascii "Internal Server Error")
    | (false, w) =>
      match parseHeaders w.reader with
      | (none, reader) =>
        writeErrorResponse { w with reader := reader } 400 (ascii "Bad Request")
      | (some header, reader) =>
        let w := { w with reader := reader }
        let contentLength := parseInt (header.get (ascii "Content-Length"))
        let w := if contentLength.err then
            writeErrorResponse w 500 (ascii "Internal Server Error")
          else w
        match osCreate w filePath with
        | (file, w) =>
          let w := if file = none then
              writeErrorResponse w 500 (ascii "Internal Server Error")
            else w
          match copyToFile w file contentLength.val with
          | (true, w) => writeErrorResponse w 500 (ascii "Internal Server Error")
          | (false, w) => writeSuccessResponse w (ascii "File uploaded successfully")

/-- The function `handleConn`. -/
def handleConn (w : World) : World :=
  match w.reader.readString with
  | (_, some _, reader) =>
    writeErrorResponse { w with reader := reader } 400 (ascii "Bad Request")
  | (requestLine, none, reader) =>
    let w := { w with reader := reader }
    match parseRequestLine requestLine with
    | (method, path, version) =>
      if method = [] ∨ path = [] ∨ version = [] then
        writeErrorResponse w 400 (ascii "Bad Request")
      else if method = ascii "GET" then handleGET w path
      else if method = ascii "POST" then handlePOST w path
      else writeErrorResponse w 501 (ascii "Not Implemented")

/-- A fresh connection carrying `input` against the filesystem `fs`. -/
def connect (fs : FS) (input : Bytes) (fin : StreamEnd) : World :=
  { reader := ⟨input, fin⟩, written := [], fs := fs, ops := [] }

/-- The bytes of a header section: each line followed by its newline. -/
def headerBlock (lines : List Bytes) : Bytes := (lines.map (fun l => l ++ [10])).flatten

/-- The reference reading of a header section, to be compared with what
`parseHeaders` stores: the value of the header called `name` is the trimmed
value of the last line whose trimmed name is `name`, byte for byte; `none`
when no line has that name. -/
def lastHeaderValue (name : Bytes) : List Bytes → Option Bytes
  | [] => none
  | l :: more =>
    match lastHeaderValue name more with
    | some v => some v
    | none =>
      match splitN2 58 (trimSpace (l ++ [10])) with
      | [k, v] => if trimSpace k = name then some (trimSpace v) else none
      | _ => none

end Server

/-! ## `proxy.go` -/

namespace Proxy

/-- An outbound `*http.Request`: method, URL and the header lines added with
`req.Header.Add`, in order. -/
structure Request where
  method : Bytes
  url : Bytes
  header : List (Bytes × Bytes)
  deriving DecidableEq, Repr

/-- An upstream `*http.Response`: the fields `Proto`, `StatusCode`, `Status`
and `Header` (each name with its values, in the order the `range` loop visits
the map), and the bytes that reading `Body` delivers. -/
structure Response where
  proto : Bytes
  statusCode : Int
  status : Bytes
  header : List (Bytes × List Bytes)
  body : Bytes
  deriving DecidableEq, Repr

/-- The package `net/http` and the network behind it: whether
`http.NewRequest(method, url, nil)` succeeds, and what `client.Do` returns
(the response, nil or not, and whether `err != nil`). -/
structure Upstream where
  newRequest : Bytes → Bytes → Bool
  doRequest : Request → Option Response × Bool

/-- All that a connection handler of the proxy touches: the connection's
reader, the log of what was written to the connection, the requests issued
upstream, and whether the handler has panicked. -/
structure World where
  reader : Reader
  written : List Bytes
  requests : List Request
  panicked : Bool
  deriving DecidableEq, Repr

/-- Go `fmt.Fprintf(conn, ...)` / `fmt.Fprint(conn, ...)`: one write. -/
def World.write (w : World) (bs : Bytes) : World := { w with written := w.written ++ [bs] }

/-- The function `parseRequestLine`. -/
def parseRequestLine (requestLine : Bytes) : Bytes × Bytes × Bytes :=
  match fields requestLine with
  | [method, url, protocol] => (method, url, protocol)
  | _ => ([], [], [])

/-- The bytes `"HTTP/1.1 %d %s\r\n\r\n%s\r\n"` formats. -/
def errorResponse (statusCode : Int) (message : Bytes) : Bytes :=
  ascii "HTTP/1.1 " ++ fmtInt statusCode ++ ascii " " ++ message ++ ascii "\r\n\r\n"
    ++ message ++ ascii "\r\n"

/-- The function `writeErrorResponse`. -/
def writeErrorResponse (w : World) (statusCode : Int) (message : Bytes) : World :=
  w.write (errorResponse statusCode message)

/-- The header loop of `forwardRequest`; `fuel` bounds the number of lines
read.  `none` is the return with a read error. -/
def forwardLoop : Nat → Reader → Request → Option Request × Reader
  | 0, reader, _ => (none, reader)
  | fuel + 1, reader, req =>
    match reader.readString with
    | (_, some .eof, reader) => (some req, reader)
    | (_, some .err, reader) => (none, reader)
    | (line, none, reader) =>
      if line = ascii "\r\n" then (some req, reader)
      else match splitN2 58 line with
        | [k, v] =>
          forwardLoop fuel reader { req with header := req.header ++ [(trimSpace k, trimSpace v)] }
        | _ => forwardLoop fuel reader req

/-- The function `forwardRequest`: the response (nil or not), whether an error
is returned, and the world afterwards. -/
def forwardRequest (up : Upstream) (method url : Bytes) (w : World) :
    Option Response × Bool × World :=
  if up.newRequest method url then
    match forwardLoop (w.reader.data.length + 1) w.reader ⟨method, url, []⟩ with
    | (none, reader) => (none, true, { w with reader := reader })
    | (some req, reader) =>
      let r := up.doRequest req
      (r.1, r.2, { w with reader := reader, requests := w.requests ++ [req] })
  else (none, true, w)

/-- The inner loop of `writeResponse`: one line per value of `key`. -/
def writeValues (key : Bytes) : List Bytes → World → World
  | [], w => w
  | value :: values, w =>
    writeValues key values (w.write (key ++ ascii ":" ++ value ++ ascii "\r\n"))

/-- The outer loop of `writeResponse`, over the header map. -/
def writeHeaders : List (Bytes × List Bytes) → World → World
  | [], w => w
  | (key, values) :: more, w => writeHeaders more (writeValues key values w)

/-- The function `writeResponse`. -/
def writeResponse (w : World) (resp : Response) : World :=
  let w := w.write (resp.proto ++ ascii " " ++ fmtInt resp.statusCode ++ ascii " "
    ++ resp.status ++ ascii "\r\n")
  let w := writeHeaders resp.header w
  let w := w.write (ascii "\r\n")
  w.write resp.body

/-- The function `handleConn`. -/
def handleConn (up : Upstream) (w : World) : World :=
  match w.reader.readString with
  | (_, some _, reader) => { w with reader := reader }
  | (requestLine, none, reader) =>
    let w := { w with reader := reader }
    match parseRequestLine requestLine with
    | (method, url, protocol) =>
      if method = [] ∨ url = [] ∨ protocol = [] then
        writeErrorResponse w 400 (ascii "Bad Request")
      else if method ≠ ascii "GET" then
        writeErrorResponse w 501 (ascii "Not Implemented")
      else
        match forwardRequest up method url w with
        | (resp, err, w) =>
          let w := if err then writeErrorResponse w 500 (ascii "Internal Server Error") else w
          match resp with
          | none => { w with panicked := true }
          | some resp => writeResponse w resp

/-- A fresh connection carrying `input`. -/
def connect (input : Bytes) (fin : StreamEnd) : World :=
  { reader := ⟨input, fin⟩, written := [], requests := [], panicked := false }

end Proxy

/-! ## The accept loop of `server.go` and its goroutines

The loop of `main` and the goroutines it starts, as an interleaving of their
statements.  The only state they share is the channel `semaphore` (of
capacity `maxClients`) and the wait group. -/

namespace Gate

/-- The statement the accept loop executes next. -/
inductive MainPc where
  | accept   -- `conn, err := listener.Accept()`
  | acquire  -- `semaphore <- struct{}{}`
  | add      -- `wg.Add(1)`
  | spawn    -- `go func(conn net.Conn) {...}(conn)`
  deriving DecidableEq, Repr

/-- The statement a handler goroutine executes next. -/
inductive HandlerPc where
  | handling  -- inside `handleConn(conn)`
  | release   -- deferred `<-semaphore`, after `handleConn` returned or panicked
  | done      -- deferred `wg.Done()`
  | close     -- deferred `conn.Close()`
  | finished
  deriving DecidableEq, Repr

/-- A handler goroutine: where it stands and how many slots it has given back. -/
structure Handler where
  pc : HandlerPc
  released : Nat
  deriving DecidableEq, Repr

/-- The accept loop, the channel and the goroutines.  `acquired` counts the
sends on the channel so far. -/
structure State where
  semaphore : Nat
  wg : Int
  main : MainPc
  acquired : Nat
  handlers : List Handler
  deriving DecidableEq, Repr

/-- What the scheduler lets happen next. -/
inductive Action where
  | accepted (ok : Bool)  -- `Accept` returns, with a connection or with an error
  | main                  -- the accept loop executes its next statement
  | handler (i : Nat)     -- goroutine `i` executes its next statement
  deriving DecidableEq, Repr

/-- The state at the first `Accept`. -/
def init : State :=
  { semaphore := 0, wg := 0, main := .accept, acquired := 0, handlers := [] }

/-- One statement of the accept loop; `none` when it is blocked. -/
def stepMain (s : State) : Option State :=
  match s.main with
  | .accept => none
  | .acquire =>
    if s.semaphore < Server.maxClients then
      some { s with semaphore := s.semaphore + 1, acquired := s.acquired + 1, main := .add }
    else none
  | .add => some { s with wg := s.wg + 1, main := .spawn }
  | .spawn => some { s with handlers := s.handlers ++ [⟨.handling, 0⟩], main := .accept }

/-- One statement of a handler goroutine; `none` when it is blocked or over. -/
def stepHandler (s : State) (i : Nat) : Option State :=
  match s.handlers[i]? with
  | none => none
  | some h =>
    match h.pc with
    | .handling => some { s with handlers := s.handlers.set i { h with pc := .release } }
    | .release =>
      if 0 < s.semaphore then
        some { s with semaphore := s.semaphore - 1,
                      handlers := s.handlers.set i ⟨.done, h.released + 1⟩ }
      else none
    | .done => some { s with wg := s.wg - 1, handlers := s.handlers.set i { h with pc := .close } }
    | .close => some { s with handlers := s.handlers.set i { h with pc := .finished } }
    | .finished => none

/-- One step of the system. -/
def step (s : State) : Action → Option State
  | .accepted ok =>
    if s.main = .accept then some (if ok then { s with main := .acquire } else s) else none
  | .main => stepMain s
  | .handler i => stepHandler s i

/-- A run of the system: the state after the actions, `none` when one of them
is not possible. -/
def run (s : State) : List Action → Option State
  | [] => some s
  | a :: more =>
    match step s a with
    | some s => run s more
    | none => none

/-- A handler that has not yet given its slot back. -/
def holds (h : Handler) : Bool := decide (h.pc = .handling) || decide (h.pc = .release)

/-- The handlers that are inside `handleConn`. -/
def active (s : State) : Nat := s.handlers.countP (fun h => decide (h.pc = .handling))

/-- The handlers that have not yet given their slot back. -/
def holders (s : State) : Nat := s.handlers.countP holds

/-- The slot the accept loop has taken for the handler it is about to start. -/
def pending (s : State) : Nat := if s.main = .add ∨ s.main = .spawn then 1 else 0

/-- The accounting of slots: every slot taken is held by a handler that has not
released it or by the accept loop, no more than `maxClients` are taken, one
was acquired for every handler started, and a handler has released one slot
exactly when it is past its deferred release. -/
def Inv (s : State) : Prop :=
  holders s + pending s = s.semaphore ∧
  s.semaphore ≤ Server.maxClients ∧
  s.acquired = s.handlers.length + pending s ∧
  ∀ h ∈ s.handlers, h.released = if holds h then 0 else 1

end Gate

/-! ## Lines and fields -/

theorem cutLine_append (pre rest : Bytes) (h : 10 ∉ pre) :
    cutLine (pre ++ 10 :: rest) = some (pre ++ [10], rest) := by
  induction pre with
  | nil => simp [cutLine]
  | cons b pre ih =>
    have hb : b ≠ 10 := fun e => h (by simp [e])
    have hp : 10 ∉ pre := fun e => h (by simp [e])
    simp [cutLine, hb, ih hp]

theorem readString_line (pre rest : Bytes) (fin : StreamEnd) (h : 10 ∉ pre) :
    Reader.readString ⟨pre ++ 10 :: rest, fin⟩ = (pre ++ [10], none, ⟨rest, fin⟩) := by
  simp [Reader.readString, cutLine_append pre rest h]

theorem decodeRune_width_pos (b : Nat) (rest : Bytes) : 1 ≤ (decodeRune (b :: rest)).2 := by
  simp only [decodeRune]
  split_ifs <;> (try split) <;> (try split_ifs) <;> simp

theorem runesAux_ne_nil (k : Nat) (s : Bytes) : ∀ c ∈ runesAux k s, c.2 ≠ [] := by
  induction s generalizing k with
  | nil => simp [runesAux]
  | cons b rest ih =>
    cases k with
    | zero =>
      intro c hc
      simp only [runesAux, List.mem_cons] at hc
      rcases hc with rfl | hc
      · have := decodeRune_width_pos b rest
        obtain ⟨n, hn⟩ : ∃ n, (decodeRune (b :: rest)).2 = n + 1 := ⟨_, (Nat.sub_add_cancel this).symm⟩
        simp [hn]
      · exact ih _ c hc
    | succ k => simpa [runesAux] using ih k

theorem fieldsAux_ne_nil (cs : List (Nat × Bytes)) (hcs : ∀ c ∈ cs, c.2 ≠ []) (cur : Bytes) :
    ∀ t ∈ fieldsAux cs cur, t ≠ [] := by
  induction cs generalizing cur with
  | nil =>
    intro t ht
    by_cases hc : cur = [] <;> simp [fieldsAux, hc] at ht
    subst ht; exact hc
  | cons c cs ih =>
    obtain ⟨r, bs⟩ := c
    have hcs2 : ∀ c ∈ cs, c.2 ≠ [] := fun c hc => hcs c (List.mem_cons_of_mem _ hc)
    intro t ht
    unfold fieldsAux at ht
    split_ifs at ht with h1 h2
    · exact ih hcs2 _ t ht
    · rcases List.mem_cons.1 ht with rfl | ht
      · exact h2
      · exact ih hcs2 _ t ht
    · exact ih hcs2 _ t ht

theorem fields_ne_nil (s : Bytes) : ∀ t ∈ fields s, t ≠ [] :=
  fieldsAux_ne_nil _ (runesAux_ne_nil 0 s) []


/-! ## Request lines -/

theorem ascii_get_ne_nil : ascii "GET" ≠ [] := by decide

theorem ascii_post_ne_get : ascii "POST" ≠ ascii "GET" := by decide

theorem bad_request_bytes :
    Server.errorResponse 400 (ascii "Bad Request")
      = ascii "HTTP/1.1 400 Bad Request\r\n\r\nBad Request\r\n" := by decide!

theorem proxy_bad_request_bytes :
    Proxy.errorResponse 400 (ascii "Bad Request")
      = ascii "HTTP/1.1 400 Bad Request\r\n\r\nBad Request\r\n" := by decide!

theorem server_parse_malformed (line : Bytes) (h : (fields line).length ≠ 3) :
    Server.parseRequestLine line = ([], [], []) := by
  unfold Server.parseRequestLine
  split
  · next heq => simp [heq] at h
  · rfl

theorem proxy_parse_malformed (line : Bytes) (h : (fields line).length ≠ 3) :
    Proxy.parseRequestLine line = ([], [], []) := by
  unfold Proxy.parseRequestLine
  split
  · next heq => simp [heq] at h
  · rfl

theorem tokens_ne_nil (line a b c : Bytes) (h : fields line = [a, b, c]) :
    a ≠ [] ∧ b ≠ [] ∧ c ≠ [] := by
  have hne := fields_ne_nil line
  rw [h] at hne
  exact ⟨hne a (by simp), hne b (by simp), hne c (by simp)⟩

theorem server_handleConn_dispatch (w : Server.World) (pre rest a b c : Bytes)
    (hnl : 10 ∉ pre) (hdata : w.reader.data = pre ++ 10 :: rest)
    (hreq : fields (pre ++ [10]) = [a, b, c]) :
    Server.handleConn w =
      if a = ascii "GET" then
        Server.handleGET { w with reader := ⟨rest, w.reader.fin⟩ } b
      else if a = ascii "POST" then
        Server.handlePOST { w with reader := ⟨rest, w.reader.fin⟩ } b
      else
        Server.writeErrorResponse { w with reader := ⟨rest, w.reader.fin⟩ } 501
          (ascii "Not Implemented") := by
  obtain ⟨ha, hb, hc⟩ := tokens_ne_nil _ a b c hreq
  have hread : w.reader.readString = (pre ++ [10], none, ⟨rest, w.reader.fin⟩) := by
    have := readString_line pre rest w.reader.fin hnl
    rw [← hdata] at this
    exact this
  simp [Server.handleConn, hread, Server.parseRequestLine, hreq, ha, hb, hc]

theorem proxy_handleConn_dispatch (up : Proxy.Upstream) (w : Proxy.World)
    (pre rest a b c : Bytes)
    (hnl : 10 ∉ pre) (hdata : w.reader.data = pre ++ 10 :: rest)
    (hreq : fields (pre ++ [10]) = [a, b, c]) :
    Proxy.handleConn up w =
      if a ≠ ascii "GET" then
        Proxy.writeErrorResponse { w with reader := ⟨rest, w.reader.fin⟩ } 501
          (ascii "Not Implemented")
      else
        match Proxy.forwardRequest up a b { w with reader := ⟨rest, w.reader.fin⟩ } with
        | (resp, err, w) =>
          match resp with
          | none =>
            { (if err then Proxy.writeErrorResponse w 500 (ascii "Internal Server Error")
                else w) with panicked := true }
          | some resp =>
            Proxy.writeResponse
              (if err then Proxy.writeErrorResponse w 500 (ascii "Internal Server Error")
                else w) resp := by
  obtain ⟨ha, hb, hc⟩ := tokens_ne_nil _ a b c hreq
  have hread : w.reader.readString = (pre ++ [10], none, ⟨rest, w.reader.fin⟩) := by
    have := readString_line pre rest w.reader.fin hnl
    rw [← hdata] at this
    exact this
  simp [Proxy.handleConn, hread, Proxy.parseRequestLine, hreq, ha, hb, hc]

/-- Claim C5.  A first line that does not split on whitespace into exactly three
tokens makes the server and the proxy write the 400 response and nothing else:
the server makes no filesystem call and leaves the filesystem as it is, the
proxy issues no upstream request.  A line that does split into three tokens is
returned by `parseRequestLine` as those tokens, in order, none of them empty,
so the 400 test of `handleConn` does not fire in either service: the server
goes on to dispatch on the method, the proxy answers 501 to a method other
than GET and otherwise goes on to `forwardRequest`. -/
theorem malformed_request_line (pre rest : Bytes) (hnl : 10 ∉ pre) :
    ((fields (pre ++ [10])).length ≠ 3 →
      (∀ (w : Server.World), w.reader.data = pre ++ 10 :: rest →
        Server.handleConn w =
          { w with reader := ⟨rest, w.reader.fin⟩,
                   written := w.written
                    ++ [ascii "HTTP/1.1 400 Bad Request\r\n\r\nBad Request\r\n"] }) ∧
      (∀ (up : Proxy.Upstream) (w : Proxy.World), w.reader.data = pre ++ 10 :: rest →
        Proxy.handleConn up w =
          { w with reader := ⟨rest, w.reader.fin⟩,
                   written := w.written
                    ++ [ascii "HTTP/1.1 400 Bad Request\r\n\r\nBad Request\r\n"] })) ∧
    (∀ a b c : Bytes, fields (pre ++ [10]) = [a, b, c] →
      Server.parseRequestLine (pre ++ [10]) = (a, b, c) ∧
      Proxy.parseRequestLine (pre ++ [10]) = (a, b, c) ∧
      ¬ (a = [] ∨ b = [] ∨ c = []) ∧
      (∀ (w : Server.World), w.reader.data = pre ++ 10 :: rest →
        Server.handleConn w =
          if a = ascii "GET" then
            Server.handleGET { w with reader := ⟨rest, w.reader.fin⟩ } b
          else if a = ascii "POST" then
            Server.handlePOST { w with reader := ⟨rest, w.reader.fin⟩ } b
          else
            Server.writeErrorResponse { w with reader := ⟨rest, w.reader.fin⟩ } 501
              (ascii "Not Implemented")) ∧
      (∀ (up : Proxy.Upstream) (w : Proxy.World), w.reader.data = pre ++ 10 :: rest →
        Proxy.handleConn up w =
          if a ≠ ascii "GET" then
            Proxy.writeErrorResponse { w with reader := ⟨rest, w.reader.fin⟩ } 501
              (ascii "Not Implemented")
          else
            match Proxy.forwardRequest up a b { w with reader := ⟨rest, w.reader.fin⟩ } with
            | (resp, err, w) =>
              match resp with
              | none =>
                { (if err then
                      Proxy.writeErrorResponse w 500 (ascii "Internal Server Error")
                    else w) with panicked := true }
              | some resp =>
                Proxy.writeResponse
                  (if err then Proxy.writeErrorResponse w 500 (ascii "Internal Server Error")
                    else w) resp)) := by
  refine ⟨fun hlen => ⟨?_, ?_⟩, ?_⟩
  · intro w hdata
    have hread : w.reader.readString = (pre ++ [10], none, ⟨rest, w.reader.fin⟩) := by
      have := readString_line pre rest w.reader.fin hnl
      rw [← hdata] at this
      exact this
    simp [Server.handleConn, hread, server_parse_malformed _ hlen, Server.writeErrorResponse,
      Server.World.write, bad_request_bytes]
  · intro up w hdata
    have hread : w.reader.readString = (pre ++ [10], none, ⟨rest, w.reader.fin⟩) := by
      have := readString_line pre rest w.reader.fin hnl
      rw [← hdata] at this
      exact this
    simp [Proxy.handleConn, hread, proxy_parse_malformed _ hlen, Proxy.writeErrorResponse,
      Proxy.World.write, proxy_bad_request_bytes]
  · intro a b c hreq
    obtain ⟨ha, hb, hc⟩ := tokens_ne_nil _ a b c hreq
    refine ⟨by simp [Server.parseRequestLine, hreq], by simp [Proxy.parseRequestLine, hreq],
      by simp [ha, hb, hc], ?_, ?_⟩
    · intro w hdata
      exact server_handleConn_dispatch w pre rest a b c hnl hdata hreq
    · intro up w hdata
      exact proxy_handleConn_dispatch up w pre rest a b c hnl hdata hreq

/-! ## The server's GET and POST -/

theorem mime_lookup_none (e : Bytes)
    (h : e ∉ [ascii ".html", ascii ".txt", ascii ".gif", ascii ".jpeg", ascii ".jpg",
      ascii ".css"]) : Server.mimeTypes.lookup e = none := by
  simp only [List.mem_cons, List.mem_singleton, not_or, List.not_mem_nil] at h
  obtain ⟨h1, h2, h3, h4, h5, h6, -⟩ := h
  have b1 : (e == ascii ".html") = false := by simpa using h1
  have b2 : (e == ascii ".txt") = false := by simpa using h2
  have b3 : (e == ascii ".gif") = false := by simpa using h3
  have b4 : (e == ascii ".jpeg") = false := by simpa using h4
  have b5 : (e == ascii ".jpg") = false := by simpa using h5
  have b6 : (e == ascii ".css") = false := by simpa using h6
  simp [Server.mimeTypes, List.lookup, b1, b2, b3, b4, b5, b6]

/-- Claim C4.  A GET or POST whose resolved path has an extension outside the
allow-list is answered with exactly the 400 response; no filesystem call is
made and the filesystem is left as it was. -/
theorem unlisted_extension_rejected (w : Server.World)
    (pre rest method path version : Bytes)
    (hnl : 10 ∉ pre) (hdata : w.reader.data = pre ++ 10 :: rest)
    (hreq : fields (pre ++ [10]) = [method, path, version])
    (hmethod : method = ascii "GET" ∨ method = ascii "POST")
    (hext : ext (join (ascii ".") path) ∉
      [ascii ".html", ascii ".txt", ascii ".gif", ascii ".jpeg", ascii ".jpg", ascii ".css"]) :
    (Server.handleConn w).written
        = w.written ++ [ascii "HTTP/1.1 400 Bad Request\r\n\r\nBad Request\r\n"] ∧
      (Server.handleConn w).ops = w.ops ∧
      (Server.handleConn w).fs = w.fs := by
  have hnone := mime_lookup_none _ hext
  rw [server_handleConn_dispatch w pre rest method path version hnl hdata hreq]
  rcases hmethod with rfl | rfl
  · simp [Server.handleGET, hnone, Server.writeErrorResponse, Server.World.write,
      bad_request_bytes]
  · simp [ascii_post_ne_get, Server.handlePOST, hnone, Server.writeErrorResponse,
      Server.World.write, bad_request_bytes]

/-- An instance of claim C4: `GET /secret.exe` is refused without a filesystem call. -/
theorem unlisted_extension_rejected_witness :
    (Server.handleConn (Server.connect ⟨[(ascii "secret.exe", .file (ascii "x"))], []⟩
        (ascii "GET /secret.exe HTTP/1.1\r\n\r\n") .eof)).written
        = [] ++ [ascii "HTTP/1.1 400 Bad Request\r\n\r\nBad Request\r\n"] ∧
      (Server.handleConn (Server.connect ⟨[(ascii "secret.exe", .file (ascii "x"))], []⟩
        (ascii "GET /secret.exe HTTP/1.1\r\n\r\n") .eof)).ops = [] ∧
      (Server.handleConn (Server.connect ⟨[(ascii "secret.exe", .file (ascii "x"))], []⟩
        (ascii "GET /secret.exe HTTP/1.1\r\n\r\n") .eof)).fs
        = ⟨[(ascii "secret.exe", .file (ascii "x"))], []⟩ :=
  unlisted_extension_rejected
    (Server.connect ⟨[(ascii "secret.exe", .file (ascii "x"))], []⟩
      (ascii "GET /secret.exe HTTP/1.1\r\n\r\n") .eof)
    (ascii "GET /secret.exe HTTP/1.1\r") (ascii "\r\n") (ascii "GET") (ascii "/secret.exe")
    (ascii "HTTP/1.1") (by decide!) (by decide!) (by decide!) (Or.inl rfl) (by decide!)

theorem get_header_literal :
    ascii "HTTP/1.1 200 OK\r\nContent-Type: "
      = ascii "HTTP/1.1 200 OK\r\n" ++ ascii "Content-Type: " := by decide!

/-- Claim C1.  For a request line `GET <path> <version>` whose resolved path has
an allow-listed extension with entry `mime` and names a file with contents
`content`, the bytes the server writes to the connection are
`HTTP/1.1 200 OK\r\nContent-Type: <mime>\r\n\r\n` followed by `content`. -/
theorem get_success (fs : FS) (fin : StreamEnd) (pre rest path version mime content : Bytes)
    (hnl : 10 ∉ pre)
    (hreq : fields (pre ++ [10]) = [ascii "GET", path, version])
    (hmime : Server.mimeTypes.lookup (ext (join (ascii ".") path)) = some mime)
    (hfile : fs.lookup (join (ascii ".") path) = some (.file content)) :
    (Server.handleConn (Server.connect fs (pre ++ 10 :: rest) fin)).wire
      = ascii "HTTP/1.1 200 OK\r\nContent-Type: " ++ mime ++ ascii "\r\n\r\n" ++ content := by
  rw [server_handleConn_dispatch _ pre rest _ path version hnl rfl hreq]
  simp [Server.handleGET, hmime, Server.World.log, Server.connect, FS.openRead, hfile,
    Server.World.write, Server.World.wire, get_header_literal]

/-- The scenario of claim C1: `GET /index.html` with `./index.html` holding `hi`. -/
theorem get_success_witness :
    (Server.handleConn (Server.connect ⟨[(ascii "index.html", .file (ascii "hi"))], []⟩
        (ascii "GET /index.html HTTP/1.1\r\n\r\n") .eof)).wire
      = ascii "HTTP/1.1 200 OK\r\nContent-Type: " ++ ascii "text/html" ++ ascii "\r\n\r\n"
          ++ ascii "hi" :=
  get_success ⟨[(ascii "index.html", .file (ascii "hi"))], []⟩ .eof
    (ascii "GET /index.html HTTP/1.1\r") (ascii "\r\n") (ascii "/index.html") (ascii "HTTP/1.1")
    (ascii "text/html") (ascii "hi") (by decide!) (by decide!) (by decide!) (by decide!)

theorem ensureDir_reader (w : Server.World) (p : Bytes) :
    (Server.ensureDir w p).2.reader = w.reader := by
  unfold Server.ensureDir
  simp only [Server.World.log]
  split_ifs <;> rfl

theorem ensureDir_written (w : Server.World) (p : Bytes) :
    (Server.ensureDir w p).2.written = w.written := by
  unfold Server.ensureDir
  simp only [Server.World.log]
  split_ifs <;> rfl

theorem copyLimited_bytes (r : Reader) (n : Int) :
    (Server.copyLimited r n).2.1 = r.data.take n.toNat := by
  simp only [Server.copyLimited]
  split_ifs with h
  · rfl
  · simp only
    rw [List.take_of_length_le (by omega)]

theorem osCreate_none (w : Server.World) (p : Bytes) (h : w.fs.create p = none) :
    Server.osCreate w p = (none, w.log (.create p)) := by
  simp [Server.osCreate, Server.World.log, h]

theorem osCreate_some (w : Server.World) (p : Bytes) (fs : FS) (h : w.fs.create p = some fs) :
    Server.osCreate w p = (some p, { w.log (.create p) with fs := fs }) := by
  simp [Server.osCreate, Server.World.log, h]

theorem lookup_writeFile (fs : FS) (p bs : Bytes) (hp : p ≠ [dot]) :
    (fs.writeFile p bs).lookup p = some (.file bs) := by
  simp [FS.lookup, FS.writeFile, hp, List.lookup]

theorem supported_ne_dot (p : Bytes) (h : (Server.mimeTypes.lookup (ext p)).isSome) :
    p ≠ [dot] := by
  rintro rfl
  revert h
  decide

theorem error500_ne_success :
    Server.errorResponse 500 (ascii "Internal Server Error")
      ≠ ascii "HTTP/1.1 200 OK\r\n\r\nFile uploaded successfully\r\n" := by decide!

/-- Claim C2, amended.  For a POST to an allow-listed path whose headers parse
and whose Content-Length parses to `n`, whenever `handlePOST` answers with the
200 success response alone, the file at the resolved path holds the first `n`
of the body bytes the client sent, or all of them when fewer than `n` arrived
(none for a negative `n`); it has exactly `n` bytes when `n` is not negative
and the client sent at least `n`. -/
theorem post_stores_leading_bytes (w : Server.World) (path : Bytes) (header : Server.Headers)
    (body : Reader) (n : Int)
    (hext : (Server.mimeTypes.lookup (ext (join (ascii ".") path))).isSome)
    (hhdr : Server.parseHeaders w.reader = (some header, body))
    (hlen : parseInt (header.get (ascii "Content-Length")) = ⟨n, false⟩)
    (hok : (Server.handlePOST w path).written
      = w.written ++ [ascii "HTTP/1.1 200 OK\r\n\r\nFile uploaded successfully\r\n"]) :
    (Server.handlePOST w path).fs.lookup (join (ascii ".") path)
        = some (.file (body.data.take n.toNat)) ∧
      (body.data.take n.toNat).length = min n.toNat body.data.length ∧
      (0 ≤ n → n.toNat ≤ body.data.length → ((body.data.take n.toNat).length : Int) = n) := by
  have hdot := supported_ne_dot _ hext
  obtain ⟨m, hm⟩ := Option.isSome_iff_exists.1 hext
  refine ⟨?_, by simp, fun h0 hle => by simp [List.length_take, hle, h0]⟩
  have hr := ensureDir_reader w (join (ascii ".") path)
  have hw := ensureDir_written w (join (ascii ".") path)
  revert hok
  unfold Server.handlePOST
  simp only [hm]
  rcases hE : Server.ensureDir w (join (ascii ".") path) with ⟨e, w1⟩
  rw [hE] at hr hw
  simp only at hr hw
  cases e with
  | true =>
    simp [Server.writeErrorResponse, Server.World.write, hw, error500_ne_success]
  | false =>
    simp only [hr, hhdr, hlen]
    cases hC : w1.fs.create (join (ascii ".") path) with
    | none =>
      rw [osCreate_none _ _ (by simpa using hC)]
      simp [Server.copyToFile, Server.writeErrorResponse, Server.World.write, Server.World.log,
        hw]
    | some fs1 =>
      rw [osCreate_some _ _ fs1 (by simpa using hC)]
      simp only [Server.copyToFile, Server.World.log]
      cases hcp : (Server.copyLimited body n).2.2 with
      | true =>
        simp [hcp, Server.writeErrorResponse, Server.World.write, hw, error500_ne_success]
      | false =>
        intro _
        simp [hcp, Server.writeSuccessResponse, Server.World.write, lookup_writeFile _ _ _ hdot,
          copyLimited_bytes]

/-- The scenario of claim C2: `POST /up/data.txt`, `Content-Length: 5`, body `hello`. -/
theorem post_stores_leading_bytes_witness :
    (Server.handlePOST
        (Server.connect ⟨[], []⟩ (ascii "Content-Length: 5\r\n\r\nhello") .eof)
        (ascii "/up/data.txt")).fs.lookup (join (ascii ".") (ascii "/up/data.txt"))
        = some (.file ((ascii "hello").take (5 : Int).toNat)) ∧
      ((ascii "hello").take (5 : Int).toNat).length = min (5 : Int).toNat (ascii "hello").length ∧
      ((0 : Int) ≤ 5 → (5 : Int).toNat ≤ (ascii "hello").length →
        (((ascii "hello").take (5 : Int).toNat).length : Int) = 5) :=
  post_stores_leading_bytes
    (Server.connect ⟨[], []⟩ (ascii "Content-Length: 5\r\n\r\nhello") .eof)
    (ascii "/up/data.txt") [(ascii "Content-Length", ascii "5")] ⟨ascii "hello", .eof⟩ 5
    (by decide!) (by decide!) (by decide!) (by decide!)

/-- Claim C2 as stated fails: with `Content-Length: 5` and a client that sends
`hel` and closes, the headers parse, the length parses to 5, `handlePOST`
answers with the 200 success response, and the stored file holds the three
bytes `hel`. -/
theorem post_short_body_counterexample :
    Server.parseHeaders ⟨ascii "Content-Length: 5\r\n\r\nhel", .eof⟩
        = (some [(ascii "Content-Length", ascii "5")], ⟨ascii "hel", .eof⟩) ∧
      parseInt (Server.Headers.get [(ascii "Content-Length", ascii "5")]
        (ascii "Content-Length")) = ⟨5, false⟩ ∧
      (Server.handleConn (Server.connect ⟨[], []⟩
          (ascii "POST /up/data.txt HTTP/1.1\r\nContent-Length: 5\r\n\r\nhel") .eof)).written
        = [ascii "HTTP/1.1 200 OK\r\n\r\nFile uploaded successfully\r\n"] ∧
      (Server.handleConn (Server.connect ⟨[], []⟩
          (ascii "POST /up/data.txt HTTP/1.1\r\nContent-Length: 5\r\n\r\nhel") .eof)).fs.lookup
          (ascii "up/data.txt") = some (.file (ascii "hel")) ∧
      (ascii "hel").length ≠ 5 := by
  decide!

/-- Claim C3 fails on the code.  A POST without Content-Length gets the 500
response and then, on the same connection, the 200 success response; so does
a POST with a non-numeric Content-Length; a POST whose file cannot be created
gets the 500 response twice. -/
theorem post_writes_two_responses :
    (Server.handleConn (Server.connect ⟨[], []⟩
        (ascii "POST /a.txt HTTP/1.1\r\n\r\n") .eof)).written
      = [ascii "HTTP/1.1 500 Internal Server Error\r\n\r\nInternal Server Error\r\n",
         ascii "HTTP/1.1 200 OK\r\n\r\nFile uploaded successfully\r\n"] ∧
    (Server.handleConn (Server.connect ⟨[], []⟩
        (ascii "POST /a.txt HTTP/1.1\r\nContent-Length: abc\r\n\r\nhello") .eof)).written
      = [ascii "HTTP/1.1 500 Internal Server Error\r\n\r\nInternal Server Error\r\n",
         ascii "HTTP/1.1 200 OK\r\n\r\nFile uploaded successfully\r\n"] ∧
    (Server.handleConn (Server.connect ⟨[(ascii "a.txt", .dir)], []⟩
        (ascii "POST /a.txt HTTP/1.1\r\nContent-Length: 5\r\n\r\nhello") .eof)).written
      = [ascii "HTTP/1.1 500 Internal Server Error\r\n\r\nInternal Server Error\r\n",
         ascii "HTTP/1.1 500 Internal Server Error\r\n\r\nInternal Server Error\r\n"] := by
  decide!

/-! ## Header names -/

theorem cutLine_length (s line rest : Bytes) (h : cutLine s = some (line, rest)) :
    rest.length < s.length := by
  induction s generalizing line rest with
  | nil => simp [cutLine] at h
  | cons b s ih =>
    unfold cutLine at h
    split_ifs at h with hb
    · simp only [Option.some.injEq, Prod.mk.injEq] at h
      rw [← h.2]
      simp
    · cases hc : cutLine s with
      | none => simp [hc] at h
      | some p =>
        obtain ⟨l, a⟩ := p
        simp only [hc, Option.some.injEq, Prod.mk.injEq] at h
        have := ih l a hc
        rw [← h.2]
        simp only [List.length_cons]
        omega

/-- The rounds of `parseHeaders` never run out: any bound above the number of
unread bytes gives the same result. -/
theorem parseHeadersLoop_fuel (fuel fuel2 : Nat) (r : Reader) (h : Server.Headers)
    (h1 : r.data.length < fuel) (h2 : r.data.length < fuel2) :
    Server.parseHeadersLoop fuel r h = Server.parseHeadersLoop fuel2 r h := by
  induction fuel generalizing fuel2 r h with
  | zero => omega
  | succ fuel ih =>
    cases fuel2 with
    | zero => omega
    | succ fuel2 =>
      unfold Server.parseHeadersLoop Reader.readString
      cases hc : cutLine r.data with
      | none => rfl
      | some p =>
        obtain ⟨line, after⟩ := p
        have hlt := cutLine_length _ _ _ hc
        simp only
        split_ifs
        · rfl
        · split
          · exact ih _ _ _ (by simp only; omega) (by simp only; omega)
          · rfl

theorem headers_get_set (m : Server.Headers) (k v key : Bytes) (hk : k ≠ key) :
    Server.Headers.get (Server.Headers.set m k v) key = Server.Headers.get m key := by
  have : (key == k) = false := by simpa using fun e => hk e.symm
  simp [Server.Headers.get, Server.Headers.set, List.lookup, this]

theorem headers_get_set_self (m : Server.Headers) (k v : Bytes) :
    Server.Headers.get (Server.Headers.set m k v) k = v := by
  simp [Server.Headers.get, Server.Headers.set, List.lookup]

theorem parseHeadersLoop_block (lines : List Bytes) (blank body : Bytes) (fin : StreamEnd)
    (hwf : ∀ x ∈ lines, 10 ∉ x ∧ (splitN2 58 (trimSpace (x ++ [10]))).length = 2)
    (hb1 : 10 ∉ blank) (hb2 : trimSpace (blank ++ [10]) = [])
    (m : Server.Headers) (fuel : Nat)
    (hfuel : (Server.headerBlock lines ++ (blank ++ 10 :: body)).length < fuel) :
    ∃ hs, Server.parseHeadersLoop fuel
          ⟨Server.headerBlock lines ++ (blank ++ 10 :: body), fin⟩ m = (some hs, ⟨body, fin⟩) ∧
      ∀ name, Server.Headers.get hs name
        = (Server.lastHeaderValue name lines).getD (Server.Headers.get m name) := by
  induction lines generalizing m fuel with
  | nil =>
    cases fuel with
    | zero => omega
    | succ fuel =>
      refine ⟨m, ?_, fun name => by simp [Server.lastHeaderValue]⟩
      simp only [Server.headerBlock, List.map_nil, List.flatten_nil, List.nil_append]
      rw [Server.parseHeadersLoop, readString_line blank body fin hb1]
      simp [hb2]
  | cons l more ih =>
    cases fuel with
    | zero => omega
    | succ fuel =>
      obtain ⟨hl, hlen⟩ := hwf l (by simp)
      have hmore : ∀ x ∈ more, 10 ∉ x ∧ (splitN2 58 (trimSpace (x ++ [10]))).length = 2 :=
        fun x hx => hwf x (List.mem_cons_of_mem _ hx)
      obtain ⟨k, v, hkv⟩ : ∃ k v, splitN2 58 (trimSpace (l ++ [10])) = [k, v] := by
        match hsp : splitN2 58 (trimSpace (l ++ [10])), hlen with
        | [k, v], _ => exact ⟨k, v, rfl⟩
      have hne : trimSpace (l ++ [10]) ≠ [] := by
        intro h0
        rw [h0] at hkv
        simp [splitN2, cut] at hkv
      have hdata : Server.headerBlock (l :: more) ++ (blank ++ 10 :: body)
          = l ++ 10 :: (Server.headerBlock more ++ (blank ++ 10 :: body)) := by
        simp [Server.headerBlock]
      rw [hdata] at hfuel ⊢
      have hf2 : (Server.headerBlock more ++ (blank ++ 10 :: body)).length < fuel := by
        simp only [List.length_append, List.length_cons] at hfuel ⊢
        omega
      obtain ⟨hs, hrun, hget⟩ :=
        ih hmore (Server.Headers.set m (trimSpace k) (trimSpace v)) fuel hf2
      refine ⟨hs, ?_, ?_⟩
      · rw [Server.parseHeadersLoop, readString_line l _ fin hl]
        simp only [hne, if_false, hkv]
        exact hrun
      · intro name
        rw [hget name]
        simp only [Server.lastHeaderValue, hkv]
        cases Server.lastHeaderValue name more with
        | some x => rfl
        | none =>
          by_cases hk : trimSpace k = name
          · subst hk
            simp [headers_get_set_self]
          · simp [hk, headers_get_set _ _ _ _ hk]

theorem parseHeaders_block (lines : List Bytes) (blank body : Bytes) (fin : StreamEnd)
    (hwf : ∀ x ∈ lines, 10 ∉ x ∧ (splitN2 58 (trimSpace (x ++ [10]))).length = 2)
    (hb1 : 10 ∉ blank) (hb2 : trimSpace (blank ++ [10]) = []) :
    ∃ hs, Server.parseHeaders ⟨Server.headerBlock lines ++ (blank ++ 10 :: body), fin⟩
          = (some hs, ⟨body, fin⟩) ∧
      ∀ name, Server.Headers.get hs name = (Server.lastHeaderValue name lines).getD [] := by
  obtain ⟨hs, h1, h2⟩ := parseHeadersLoop_block lines blank body fin hwf hb1 hb2 []
    ((Server.headerBlock lines ++ (blank ++ 10 :: body)).length + 1) (Nat.lt_succ_self _)
  exact ⟨hs, h1, fun name => by simpa [Server.Headers.get] using h2 name⟩

theorem lastHeaderValue_other_name (name : Bytes) (xs ys : List Bytes) (l k v : Bytes)
    (hsplit : splitN2 58 (trimSpace (l ++ [10])) = [k, v]) (hname : trimSpace k ≠ name) :
    Server.lastHeaderValue name (xs ++ l :: ys) = Server.lastHeaderValue name (xs ++ ys) := by
  induction xs with
  | nil =>
    simp only [List.nil_append, Server.lastHeaderValue, hsplit, hname, if_false]
    cases Server.lastHeaderValue name ys <;> rfl
  | cons x xs ih =>
    show Server.lastHeaderValue name (x :: (xs ++ l :: ys))
      = Server.lastHeaderValue name (x :: (xs ++ ys))
    rw [Server.lastHeaderValue, Server.lastHeaderValue, ih]

theorem ensureDir_with_reader (w : Server.World) (r : Reader) (p : Bytes) :
    Server.ensureDir { w with reader := r } p
      = ((Server.ensureDir w p).1, { (Server.ensureDir w p).2 with reader := r }) := by
  unfold Server.ensureDir
  simp only [Server.World.log]
  split_ifs <;> rfl

/-- After the headers are parsed, `handlePOST` depends on them only through the
value stored under `Content-Length`. -/
theorem handlePOST_after_headers (path : Bytes) :
    ∃ G : Server.World → IntResult → Server.World,
      ∀ (w w1 : Server.World) (m : Bytes) (header : Server.Headers) (rd : Reader),
        Server.mimeTypes.lookup (ext (join (ascii ".") path)) = some m →
        Server.ensureDir w (join (ascii ".") path) = (false, w1) →
        Server.parseHeaders w1.reader = (some header, rd) →
        Server.handlePOST w path
          = G { w1 with reader := rd }
              (parseInt (Server.Headers.get header (ascii "Content-Length"))) := by
  refine ⟨fun u contentLength =>
    match Server.osCreate
      (if contentLength.err then
          Server.writeErrorResponse u 500 (ascii "Internal Server Error")
        else u) (join (ascii ".") path) with
    | (file, u) =>
      match Server.copyToFile
        (if file = none then Server.writeErrorResponse u 500 (ascii "Internal Server Error")
          else u) file contentLength.val with
      | (true, u) => Server.writeErrorResponse u 500 (ascii "Internal Server Error")
      | (false, u) => Server.writeSuccessResponse u (ascii "File uploaded successfully"), ?_⟩
  intro w w1 m header rd hm hE hP
  simp only [Server.handlePOST, hm, hE, hP]

theorem handlePOST_same_length (w : Server.World) (path : Bytes) (r1 r2 rd : Reader)
    (h1 h2 : Server.Headers)
    (hp1 : Server.parseHeaders r1 = (some h1, rd))
    (hp2 : Server.parseHeaders r2 = (some h2, rd))
    (hget : Server.Headers.get h1 (ascii "Content-Length")
      = Server.Headers.get h2 (ascii "Content-Length")) :
    (Server.handlePOST { w with reader := r1 } path).written
        = (Server.handlePOST { w with reader := r2 } path).written ∧
      (Server.handlePOST { w with reader := r1 } path).fs
        = (Server.handlePOST { w with reader := r2 } path).fs ∧
      (Server.handlePOST { w with reader := r1 } path).ops
        = (Server.handlePOST { w with reader := r2 } path).ops := by
  cases hm : Server.mimeTypes.lookup (ext (join (ascii ".") path)) with
  | none =>
    simp [Server.handlePOST, hm, Server.writeErrorResponse, Server.World.write]
  | some m =>
    have e1 := ensureDir_with_reader w r1 (join (ascii ".") path)
    have e2 := ensureDir_with_reader w r2 (join (ascii ".") path)
    rcases hE : Server.ensureDir w (join (ascii ".") path) with ⟨e, w1⟩
    rw [hE] at e1 e2
    cases e with
    | true =>
      simp [Server.handlePOST, hm, e1, e2, Server.writeErrorResponse, Server.World.write]
    | false =>
      obtain ⟨G, hG⟩ := handlePOST_after_headers path
      have g1 := hG { w with reader := r1 } { w1 with reader := r1 } m h1 rd hm e1 hp1
      have g2 := hG { w with reader := r2 } { w1 with reader := r2 } m h2 rd hm e2 hp2
      have hw : ({ ({ w1 with reader := r1 } : Server.World) with reader := rd } : Server.World)
          = { ({ w1 with reader := r2 } : Server.World) with reader := rd } := rfl
      rw [g1, g2, hget, hw]
      exact ⟨rfl, rfl, rfl⟩

/-- Claim C9, amended.  Header names are matched byte for byte on the server.
The Content-Length value that `parseHeaders` hands to `handlePOST` is the
trimmed value of the last header line whose trimmed name is exactly
`Content-Length`, and is empty when there is no such line.  A header line with
any other name, such as the same name in another letter case, changes
nothing wherever it stands among the header lines: with or without it the
headers parse, the body that follows is left unread, the Content-Length value
is the same, and `handlePOST` writes the same responses, leaves the same
filesystem and makes the same filesystem calls. -/
theorem header_name_exact (w : Server.World) (path : Bytes) (xs ys : List Bytes)
    (l k v blank body : Bytes) (fin : StreamEnd)
    (hxs : ∀ x ∈ xs, 10 ∉ x ∧ (splitN2 58 (trimSpace (x ++ [10]))).length = 2)
    (hys : ∀ x ∈ ys, 10 ∉ x ∧ (splitN2 58 (trimSpace (x ++ [10]))).length = 2)
    (hl : 10 ∉ l) (hsplit : splitN2 58 (trimSpace (l ++ [10])) = [k, v])
    (hname : trimSpace k ≠ ascii "Content-Length")
    (hb1 : 10 ∉ blank) (hb2 : trimSpace (blank ++ [10]) = []) :
    ∃ h1 h2 : Server.Headers,
      Server.parseHeaders ⟨Server.headerBlock (xs ++ l :: ys) ++ (blank ++ 10 :: body), fin⟩
        = (some h1, ⟨body, fin⟩) ∧
      Server.parseHeaders ⟨Server.headerBlock (xs ++ ys) ++ (blank ++ 10 :: body), fin⟩
        = (some h2, ⟨body, fin⟩) ∧
      Server.Headers.get h1 (ascii "Content-Length")
        = (Server.lastHeaderValue (ascii "Content-Length") (xs ++ ys)).getD [] ∧
      Server.Headers.get h2 (ascii "Content-Length")
        = (Server.lastHeaderValue (ascii "Content-Length") (xs ++ ys)).getD [] ∧
      (Server.handlePOST { w with reader :=
          ⟨Server.headerBlock (xs ++ l :: ys) ++ (blank ++ 10 :: body), fin⟩ } path).written
        = (Server.handlePOST { w with reader :=
          ⟨Server.headerBlock (xs ++ ys) ++ (blank ++ 10 :: body), fin⟩ } path).written ∧
      (Server.handlePOST { w with reader :=
          ⟨Server.headerBlock (xs ++ l :: ys) ++ (blank ++ 10 :: body), fin⟩ } path).fs
        = (Server.handlePOST { w with reader :=
          ⟨Server.headerBlock (xs ++ ys) ++ (blank ++ 10 :: body), fin⟩ } path).fs ∧
      (Server.handlePOST { w with reader :=
          ⟨Server.headerBlock (xs ++ l :: ys) ++ (blank ++ 10 :: body), fin⟩ } path).ops
        = (Server.handlePOST { w with reader :=
          ⟨Server.headerBlock (xs ++ ys) ++ (blank ++ 10 :: body), fin⟩ } path).ops := by
  have hwith : ∀ x ∈ xs ++ l :: ys,
      10 ∉ x ∧ (splitN2 58 (trimSpace (x ++ [10]))).length = 2 := by
    intro x hx
    rcases List.mem_append.1 hx with hx | hx
    · exact hxs x hx
    · rcases List.mem_cons.1 hx with rfl | hx
      · exact ⟨hl, by rw [hsplit]; rfl⟩
      · exact hys x hx
  have hwithout : ∀ x ∈ xs ++ ys,
      10 ∉ x ∧ (splitN2 58 (trimSpace (x ++ [10]))).length = 2 := by
    intro x hx
    rcases List.mem_append.1 hx with hx | hx
    · exact hxs x hx
    · exact hys x hx
  obtain ⟨h1, hp1, hg1⟩ := parseHeaders_block (xs ++ l :: ys) blank body fin hwith hb1 hb2
  obtain ⟨h2, hp2, hg2⟩ := parseHeaders_block (xs ++ ys) blank body fin hwithout hb1 hb2
  have hv1 := hg1 (ascii "Content-Length")
  have hv2 := hg2 (ascii "Content-Length")
  rw [lastHeaderValue_other_name _ xs ys l k v hsplit hname] at hv1
  exact ⟨h1, h2, hp1, hp2, hv1, hv2,
    handlePOST_same_length w path _ _ _ h1 h2 hp1 hp2 (hv1.trans hv2.symm)⟩

/-- An instance of claim C9, amended: after `Content-Length: 5`, the line
`content-length: 7` changes nothing; the length stays `5` and the upload of
`hello` to `/a.txt` is the same with and without it. -/
theorem header_name_exact_witness :
    ∃ h1 h2 : Server.Headers,
      Server.parseHeaders
          ⟨Server.headerBlock ([ascii "Content-Length: 5\r"] ++ ascii "content-length: 7\r" :: [])
            ++ (ascii "\r" ++ 10 :: ascii "hello"), .eof⟩
        = (some h1, ⟨ascii "hello", .eof⟩) ∧
      Server.parseHeaders
          ⟨Server.headerBlock ([ascii "Content-Length: 5\r"] ++ [])
            ++ (ascii "\r" ++ 10 :: ascii "hello"), .eof⟩
        = (some h2, ⟨ascii "hello", .eof⟩) ∧
      Server.Headers.get h1 (ascii "Content-Length")
        = (Server.lastHeaderValue (ascii "Content-Length")
            ([ascii "Content-Length: 5\r"] ++ [])).getD [] ∧
      Server.Headers.get h2 (ascii "Content-Length")
        = (Server.lastHeaderValue (ascii "Content-Length")
            ([ascii "Content-Length: 5\r"] ++ [])).getD [] ∧
      (Server.handlePOST { Server.connect ⟨[], []⟩ [] .eof with reader :=
          ⟨Server.headerBlock ([ascii "Content-Length: 5\r"] ++ ascii "content-length: 7\r" :: [])
            ++ (ascii "\r" ++ 10 :: ascii "hello"), .eof⟩ } (ascii "/a.txt")).written
        = (Server.handlePOST { Server.connect ⟨[], []⟩ [] .eof with reader :=
          ⟨Server.headerBlock ([ascii "Content-Length: 5\r"] ++ [])
            ++ (ascii "\r" ++ 10 :: ascii "hello"), .eof⟩ } (ascii "/a.txt")).written ∧
      (Server.handlePOST { Server.connect ⟨[], []⟩ [] .eof with reader :=
          ⟨Server.headerBlock ([ascii "Content-Length: 5\r"] ++ ascii "content-length: 7\r" :: [])
            ++ (ascii "\r" ++ 10 :: ascii "hello"), .eof⟩ } (ascii "/a.txt")).fs
        = (Server.handlePOST { Server.connect ⟨[], []⟩ [] .eof with reader :=
          ⟨Server.headerBlock ([ascii "Content-Length: 5\r"] ++ [])
            ++ (ascii "\r" ++ 10 :: ascii "hello"), .eof⟩ } (ascii "/a.txt")).fs ∧
      (Server.handlePOST { Server.connect ⟨[], []⟩ [] .eof with reader :=
          ⟨Server.headerBlock ([ascii "Content-Length: 5\r"] ++ ascii "content-length: 7\r" :: [])
            ++ (ascii "\r" ++ 10 :: ascii "hello"), .eof⟩ } (ascii "/a.txt")).ops
        = (Server.handlePOST { Server.connect ⟨[], []⟩ [] .eof with reader :=
          ⟨Server.headerBlock ([ascii "Content-Length: 5\r"] ++ [])
            ++ (ascii "\r" ++ 10 :: ascii "hello"), .eof⟩ } (ascii "/a.txt")).ops :=
  header_name_exact (Server.connect ⟨[], []⟩ [] .eof) (ascii "/a.txt")
    [ascii "Content-Length: 5\r"] [] (ascii "content-length: 7\r") (ascii "content-length")
    (ascii " 7") (ascii "\r") (ascii "hello") .eof
    (by decide!) (by decide!) (by decide!) (by decide!) (by decide!) (by decide!) (by decide!)

/-- Claim C9 as stated fails: the same POST with the header spelled
`Content-Length` and spelled `content-length` gives different Content-Length
values, different responses and different stored files. -/
theorem header_case_counterexample :
    (Server.parseHeaders ⟨ascii "Content-Length: 5\r\n\r\nhello", .eof⟩).1.map
        (fun hs => Server.Headers.get hs (ascii "Content-Length")) = some (ascii "5") ∧
    (Server.parseHeaders ⟨ascii "content-length: 5\r\n\r\nhello", .eof⟩).1.map
        (fun hs => Server.Headers.get hs (ascii "Content-Length")) = some [] ∧
    (Server.handleConn (Server.connect ⟨[], []⟩
        (ascii "POST /a.txt HTTP/1.1\r\nContent-Length: 5\r\n\r\nhello") .eof)).written
      = [ascii "HTTP/1.1 200 OK\r\n\r\nFile uploaded successfully\r\n"] ∧
    (Server.handleConn (Server.connect ⟨[], []⟩
        (ascii "POST /a.txt HTTP/1.1\r\ncontent-length: 5\r\n\r\nhello") .eof)).written
      = [ascii "HTTP/1.1 500 Internal Server Error\r\n\r\nInternal Server Error\r\n",
         ascii "HTTP/1.1 200 OK\r\n\r\nFile uploaded successfully\r\n"] ∧
    (Server.handleConn (Server.connect ⟨[], []⟩
        (ascii "POST /a.txt HTTP/1.1\r\nContent-Length: 5\r\n\r\nhello") .eof)).fs.lookup
        (ascii "a.txt") = some (.file (ascii "hello")) ∧
    (Server.handleConn (Server.connect ⟨[], []⟩
        (ascii "POST /a.txt HTTP/1.1\r\ncontent-length: 5\r\n\r\nhello") .eof)).fs.lookup
        (ascii "a.txt") = some (.file []) := by
  decide!

/-- An instance of claim C5: `GET /index.html` without a version gets the 400
response from both services, and the three tokens of a full request line come
back in order. -/
theorem malformed_request_line_witness :
    (Server.handleConn (Server.connect ⟨[], []⟩ (ascii "GET /index.html\r\n\r\n") .eof)
        = { Server.connect ⟨[], []⟩ (ascii "GET /index.html\r\n\r\n") .eof with
              reader := ⟨ascii "\r\n", .eof⟩,
              written := [] ++ [ascii "HTTP/1.1 400 Bad Request\r\n\r\nBad Request\r\n"] }) ∧
      (Proxy.handleConn ⟨fun _ _ => true, fun _ => (none, true)⟩
          (Proxy.connect (ascii "GET /index.html\r\n\r\n") .eof)
        = { Proxy.connect (ascii "GET /index.html\r\n\r\n") .eof with
              reader := ⟨ascii "\r\n", .eof⟩,
              written := [] ++ [ascii "HTTP/1.1 400 Bad Request\r\n\r\nBad Request\r\n"] }) ∧
      Server.parseRequestLine (ascii "GET /index.html HTTP/1.1\r" ++ [10])
        = (ascii "GET", ascii "/index.html", ascii "HTTP/1.1") ∧
      Proxy.parseRequestLine (ascii "GET /index.html HTTP/1.1\r" ++ [10])
        = (ascii "GET", ascii "/index.html", ascii "HTTP/1.1") :=
  ⟨((malformed_request_line (ascii "GET /index.html\r") (ascii "\r\n") (by decide!)).1
      (by decide!)).1 (Server.connect ⟨[], []⟩ (ascii "GET /index.html\r\n\r\n") .eof)
      (by decide!),
    ((malformed_request_line (ascii "GET /index.html\r") (ascii "\r\n") (by decide!)).1
      (by decide!)).2 ⟨fun _ _ => true, fun _ => (none, true)⟩
      (Proxy.connect (ascii "GET /index.html\r\n\r\n") .eof) (by decide!),
    ((malformed_request_line (ascii "GET /index.html HTTP/1.1\r") (ascii "\r\n")
      (by decide!)).2 (ascii "GET") (ascii "/index.html") (ascii "HTTP/1.1") (by decide!)).1,
    ((malformed_request_line (ascii "GET /index.html HTTP/1.1\r") (ascii "\r\n")
      (by decide!)).2 (ascii "GET") (ascii "/index.html") (ascii "HTTP/1.1")
      (by decide!)).2.1⟩

/-! ## The proxy -/

theorem writeValues_written (key : Bytes) (values : List Bytes) (w : Proxy.World) :
    (Proxy.writeValues key values w).written
      = w.written ++ values.map (fun value => key ++ ascii ":" ++ value ++ ascii "\r\n") := by
  induction values generalizing w with
  | nil => simp [Proxy.writeValues]
  | cons v vs ih => simp [Proxy.writeValues, ih, Proxy.World.write]

theorem writeHeaders_written (header : List (Bytes × List Bytes)) (w : Proxy.World) :
    (Proxy.writeHeaders header w).written
      = w.written ++ (header.map (fun kv =>
          kv.2.map (fun value => kv.1 ++ ascii ":" ++ value ++ ascii "\r\n"))).flatten := by
  induction header generalizing w with
  | nil => simp [Proxy.writeHeaders]
  | cons kv more ih =>
    obtain ⟨key, values⟩ := kv
    simp [Proxy.writeHeaders, ih, writeValues_written]

/-- Claim C7.  Between the status line and the blank line `writeResponse` writes
one line per (name, value) pair of the upstream header: a name with several
values gives that many lines, each with the name and one value, in the order
of the values; the number of header lines is the total number of values. -/
theorem headers_one_line_per_value (w : Proxy.World) (resp : Proxy.Response) :
    (Proxy.writeResponse w resp).written
        = w.written
          ++ [resp.proto ++ ascii " " ++ fmtInt resp.statusCode ++ ascii " " ++ resp.status
                ++ ascii "\r\n"]
          ++ (resp.header.map (fun kv =>
                kv.2.map (fun value => kv.1 ++ ascii ":" ++ value ++ ascii "\r\n"))).flatten
          ++ [ascii "\r\n", resp.body] ∧
      ((resp.header.map (fun kv =>
          kv.2.map (fun value => kv.1 ++ ascii ":" ++ value ++ ascii "\r\n"))).flatten).length
        = (resp.header.map (fun kv => kv.2.length)).sum := by
  constructor
  · simp [Proxy.writeResponse, Proxy.World.write, writeHeaders_written]
  · induction resp.header with
    | nil => rfl
    | cons kv more ih =>
      simp only [List.map_cons, List.flatten_cons, List.length_append, List.length_map,
        List.sum_cons, ih]

/-- Claim C6 fails on the code.  For the upstream status line `HTTP/1.1 200 OK`
(fields `Proto = "HTTP/1.1"`, `StatusCode = 200`, `Status = "200 OK"`)
`writeResponse` writes the line `HTTP/1.1 200 200 OK`: the code appears twice. -/
theorem status_line_repeats_code :
    (Proxy.writeResponse (Proxy.connect [] .eof)
        ⟨ascii "HTTP/1.1", 200, ascii "200 OK", [], ascii "body"⟩).written
      = [ascii "HTTP/1.1 200 200 OK\r\n", ascii "\r\n", ascii "body"] ∧
    ascii "HTTP/1.1 200 200 OK\r\n" ≠ ascii "HTTP/1.1 200 OK\r\n" := by
  decide!

/-- Claim C8 fails on the code.  When `client.Do` fails (nil response, non-nil
error) for `GET http://down.invalid/`, `handleConn` writes the 500 response
and then panics on the nil response instead of returning; the same happens
when `http.NewRequest` rejects the URL. -/
theorem upstream_failure_panics :
    Proxy.handleConn ⟨fun _ _ => true, fun _ => (none, true)⟩
        (Proxy.connect (ascii "GET http://down.invalid/ HTTP/1.1\r\n\r\n") .eof)
      = { reader := ⟨[], .eof⟩,
          written :=
            [ascii "HTTP/1.1 500 Internal Server Error\r\n\r\nInternal Server Error\r\n"],
          requests := [⟨ascii "GET", ascii "http://down.invalid/", []⟩],
          panicked := true } ∧
    Proxy.handleConn ⟨fun _ _ => false, fun _ => (none, true)⟩
        (Proxy.connect (ascii "GET :bad HTTP/1.1\r\n\r\n") .eof)
      = { reader := ⟨ascii "\r\n", .eof⟩,
          written :=
            [ascii "HTTP/1.1 500 Internal Server Error\r\n\r\nInternal Server Error\r\n"],
          requests := [],
          panicked := true } := by
  decide!

/-- The rounds of `forwardRequest` never run out: any bound above the number
of unread bytes gives the same result. -/
theorem forwardLoop_fuel (fuel fuel2 : Nat) (r : Reader) (req : Proxy.Request)
    (h1 : r.data.length < fuel) (h2 : r.data.length < fuel2) :
    Proxy.forwardLoop fuel r req = Proxy.forwardLoop fuel2 r req := by
  induction fuel generalizing fuel2 r req with
  | zero => omega
  | succ fuel ih =>
    cases fuel2 with
    | zero => omega
    | succ fuel2 =>
      unfold Proxy.forwardLoop Reader.readString
      cases hc : cutLine r.data with
      | none => cases r.fin <;> rfl
      | some p =>
        obtain ⟨line, after⟩ := p
        have hlt := cutLine_length _ _ _ hc
        simp only
        split_ifs
        · rfl
        · split
          · exact ih _ _ _ (by simp only; omega) (by simp only; omega)
          · exact ih _ _ _ (by simp only; omega) (by simp only; omega)

/-! ## The concurrency gate -/

namespace Gate

theorem countP_set (p : Handler → Bool) (l : List Handler) (i : Nat) (a b : Handler)
    (h : l[i]? = some a) :
    (l.set i b).countP p + (if p a then 1 else 0) = l.countP p + (if p b then 1 else 0) := by
  induction l generalizing i with
  | nil => simp at h
  | cons x xs ih =>
    cases i with
    | zero =>
      simp only [List.getElem?_cons_zero, Option.some.injEq] at h
      subst h
      simp only [List.set_cons_zero, List.countP_cons]
      omega
    | succ i =>
      simp only [List.getElem?_cons_succ] at h
      have := ih i h
      simp only [List.set_cons_succ, List.countP_cons]
      omega

theorem mem_of_get (l : List Handler) (i : Nat) (a : Handler) (h : l[i]? = some a) :
    a ∈ l := by
  induction l generalizing i with
  | nil => simp at h
  | cons x xs ih =>
    cases i with
    | zero =>
      simp only [List.getElem?_cons_zero, Option.some.injEq] at h
      simp [h]
    | succ i =>
      simp only [List.getElem?_cons_succ] at h
      exact List.mem_cons_of_mem _ (ih i h)

theorem mem_set (l : List Handler) (i : Nat) (b x : Handler) (h : x ∈ l.set i b) :
    x = b ∨ x ∈ l := by
  induction l generalizing i with
  | nil => simp at h
  | cons y ys ih =>
    cases i with
    | zero =>
      simp only [List.set_cons_zero, List.mem_cons] at h
      rcases h with h | h
      · exact Or.inl h
      · exact Or.inr (List.mem_cons_of_mem _ h)
    | succ i =>
      simp only [List.set_cons_succ, List.mem_cons] at h
      rcases h with h | h
      · exact Or.inr (by simp [h])
      · rcases ih i h with h | h
        · exact Or.inl h
        · exact Or.inr (List.mem_cons_of_mem _ h)

theorem inv_init : Inv init := by
  simp [Inv, init, holders, pending]

theorem inv_stepMain (s t : State) (hs : Inv s) (h : stepMain s = some t) : Inv t := by
  obtain ⟨h1, h2, h3, h4⟩ := hs
  unfold stepMain at h
  simp only [holders, pending] at h1 h3
  cases hm : s.main with
  | accept => simp [hm] at h
  | acquire =>
    simp only [hm] at h
    split_ifs at h with hlt
    simp only [Option.some.injEq] at h
    subst h
    simp [hm] at h1 h3
    refine ⟨?_, ?_, ?_, h4⟩
    · simp [holders, pending]; omega
    · simp only; omega
    · simp [pending]; omega
  | add =>
    simp only [hm, Option.some.injEq] at h
    subst h
    simp [hm] at h1 h3
    refine ⟨?_, h2, ?_, h4⟩
    · simp [holders, pending]; omega
    · simp [pending]; omega
  | spawn =>
    simp only [hm, Option.some.injEq] at h
    subst h
    simp [hm] at h1 h3
    refine ⟨?_, h2, ?_, ?_⟩
    · simp [holders, pending, holds]; omega
    · simp [pending]; omega
    · intro x hx
      rcases List.mem_append.1 hx with hx | hx
      · exact h4 x hx
      · simp only [List.mem_singleton] at hx
        subst hx
        simp [holds]

theorem inv_update (s t : State) (i : Nat) (a b : Handler) (hs : Inv s)
    (hg : s.handlers[i]? = some a)
    (hh : t.handlers = s.handlers.set i b) (hm : t.main = s.main)
    (hq : t.acquired = s.acquired)
    (hsem : t.semaphore + (if holds a then 1 else 0)
      = s.semaphore + (if holds b then 1 else 0))
    (hle : holds b = true → holds a = true)
    (hb : b.released = if holds b then 0 else 1) : Inv t := by
  obtain ⟨h1, h2, h3, h4⟩ := hs
  have hc := countP_set holds s.handlers i a b hg
  have hp : pending t = pending s := by simp [pending, hm]
  refine ⟨?_, ?_, ?_, ?_⟩
  · simp only [holders] at h1 ⊢
    rw [hp, hh]
    omega
  · cases ha2 : holds a <;> cases hb2 : holds b <;> simp [ha2, hb2] at hsem hle <;> omega
  · rw [hp, hh, hq, List.length_set]
    exact h3
  · intro x hx
    rw [hh] at hx
    rcases mem_set _ _ _ _ hx with hx | hx
    · subst hx
      exact hb
    · exact h4 x hx

theorem inv_stepHandler (s t : State) (i : Nat) (hs : Inv s) (h : stepHandler s i = some t) :
    Inv t := by
  unfold stepHandler at h
  cases hg : s.handlers[i]? with
  | none => simp [hg] at h
  | some a =>
    simp only [hg] at h
    cases hpc : a.pc with
    | handling =>
      simp only [hpc, Option.some.injEq] at h
      subst h
      exact inv_update s _ i a { a with pc := .release } hs hg rfl rfl rfl
        (by simp [holds, hpc]) (by simp [holds, hpc])
        (by have := hs.2.2.2 a (mem_of_get _ _ _ hg); simpa [holds, hpc] using this)
    | release =>
      simp only [hpc] at h
      split_ifs at h with hpos
      simp only [Option.some.injEq] at h
      subst h
      exact inv_update s _ i a ⟨.done, a.released + 1⟩ hs hg rfl rfl rfl
        (by simp [holds, hpc]; omega) (by simp [holds])
        (by have := hs.2.2.2 a (mem_of_get _ _ _ hg); simpa [holds, hpc] using this)
    | done =>
      simp only [hpc, Option.some.injEq] at h
      subst h
      exact inv_update s _ i a { a with pc := .close } hs hg rfl rfl rfl
        (by simp [holds, hpc]) (by simp [holds])
        (by have := hs.2.2.2 a (mem_of_get _ _ _ hg); simpa [holds, hpc] using this)
    | close =>
      simp only [hpc, Option.some.injEq] at h
      subst h
      exact inv_update s _ i a { a with pc := .finished } hs hg rfl rfl rfl
        (by simp [holds, hpc]) (by simp [holds])
        (by have := hs.2.2.2 a (mem_of_get _ _ _ hg); simpa [holds, hpc] using this)
    | finished => simp [hpc] at h

theorem inv_step (s t : State) (a : Action) (hs : Inv s) (h : step s a = some t) : Inv t := by
  cases a with
  | accepted ok =>
    obtain ⟨h1, h2, h3, h4⟩ := hs
    by_cases hm : s.main = .accept
    · cases ok with
      | true =>
        simp only [step, hm, if_true, Option.some.injEq] at h
        subst h
        simp [holders, pending, hm] at h1 h3
        exact ⟨by simpa [holders, pending] using h1, h2, by simpa [pending] using h3, h4⟩
      | false =>
        simp [step, hm] at h
        subst h
        exact ⟨h1, h2, h3, h4⟩
    · simp [step, hm] at h
  | main => exact inv_stepMain s t hs h
  | handler i => exact inv_stepHandler s t i hs h

theorem inv_run (acts : List Action) (s t : State) (hs : Inv s) (h : run s acts = some t) :
    Inv t := by
  induction acts generalizing s with
  | nil =>
    simp only [run, Option.some.injEq] at h
    exact h ▸ hs
  | cons a more ih =>
    simp only [run] at h
    cases hst : step s a with
    | none => simp [hst] at h
    | some u =>
      simp only [hst] at h
      exact ih u (inv_step s u a hs hst) h

theorem active_le_holders (s : State) : active s ≤ holders s := by
  unfold active holders
  apply List.countP_mono_left
  intro h _ hh
  simp only [decide_eq_true_eq] at hh
  simp [holds, hh]

end Gate

/-- Claim C10.  In every state the accept loop and its handler goroutines can
reach, at most `maxClients` handlers are active.  Every slot taken from the
semaphore is held by a handler that has not yet released it or by the accept
loop on its way to start one, so no slot is lost; a slot has been acquired
for every handler started; and a handler has released no slot while it runs
and exactly one once it is past its deferred release. -/
theorem gate_bound (acts : List Gate.Action) (s : Gate.State)
    (h : Gate.run Gate.init acts = some s) :
    Gate.active s ≤ Server.maxClients ∧
      Server.maxClients = 10 ∧
      Gate.holders s + Gate.pending s = s.semaphore ∧
      s.semaphore ≤ Server.maxClients ∧
      s.acquired = s.handlers.length + Gate.pending s ∧
      ∀ x ∈ s.handlers, x.released = if Gate.holds x then 0 else 1 := by
  obtain ⟨h1, h2, h3, h4⟩ := Gate.inv_run acts Gate.init s Gate.inv_init h
  have := Gate.active_le_holders s
  exact ⟨by omega, rfl, h1, h2, h3, h4⟩

/-- An instance of claim C10: two connections accepted, the first handler past
its release, the second still running. -/
theorem gate_bound_witness :
    Gate.active ⟨1, 2, .accept, 2, [⟨.done, 1⟩, ⟨.handling, 0⟩]⟩ ≤ Server.maxClients ∧
      Server.maxClients = 10 ∧
      Gate.holders ⟨1, 2, .accept, 2, [⟨.done, 1⟩, ⟨.handling, 0⟩]⟩
          + Gate.pending ⟨1, 2, .accept, 2, [⟨.done, 1⟩, ⟨.handling, 0⟩]⟩
        = (⟨1, 2, .accept, 2, [⟨.done, 1⟩, ⟨.handling, 0⟩]⟩ : Gate.State).semaphore ∧
      (⟨1, 2, .accept, 2, [⟨.done, 1⟩, ⟨.handling, 0⟩]⟩ : Gate.State).semaphore
        ≤ Server.maxClients ∧
      (⟨1, 2, .accept, 2, [⟨.done, 1⟩, ⟨.handling, 0⟩]⟩ : Gate.State).acquired
        = (⟨1, 2, .accept, 2, [⟨.done, 1⟩, ⟨.handling, 0⟩]⟩ : Gate.State).handlers.length
          + Gate.pending ⟨1, 2, .accept, 2, [⟨.done, 1⟩, ⟨.handling, 0⟩]⟩ ∧
      ∀ x ∈ (⟨1, 2, .accept, 2, [⟨.done, 1⟩, ⟨.handling, 0⟩]⟩ : Gate.State).handlers,
        x.released = if Gate.holds x then 0 else 1 :=
  gate_bound
    [.accepted true, .main, .main, .main, .accepted true, .main, .main, .handler 0,
      .handler 0, .main]
    ⟨1, 2, .accept, 2, [⟨.done, 1⟩, ⟨.handling, 0⟩]⟩ (by decide!)

/-- With ten handlers running, the accept loop cannot take an eleventh slot
until one of them releases. -/
theorem gate_blocks_when_full :
    Gate.run Gate.init
        ((List.replicate 10 [Gate.Action.accepted true, .main, .main, .main]).flatten
          ++ [.accepted true, .main]) = none ∧
      (Gate.run Gate.init
        ((List.replicate 10 [Gate.Action.accepted true, .main, .main, .main]).flatten
          ++ [.accepted true, .handler 3, .handler 3, .main])).map Gate.active = some 9 := by
  decide!

end Lab1
